import Mathlib

/-!
Verification of the console-viz terminal rendering toolkit.

Shallow embedding conventions:
- Go `float64` values that the verified code paths manipulate are embedded as `ℚ`;
  on every input considered here the Go float arithmetic is exact (small dyadic
  rationals and integer-valued products), so the models agree with the binary.
- Go `map[image.Point]Cell` is embedded as the total function `Point → Option Cell`;
  each Go loop over the map keys is translated to its pointwise effect, which is
  exact because map iteration order is irrelevant to the results proved here.
- A Go function that can panic is embedded with an explicit `crash` result.
- Go `int(x)` conversion from float is truncation toward zero (`goInt`).
-/

namespace ConsoleViz

/-! ## styling: colors, modifiers, styles.
Mirrors the `Color`/`Modifier`/`Style` declarations of the `termui` package
(`part_007`, second section); the `styling` package used by the `draw` package
declares the identical names and, per the spec data model and the termbox
translation `tb.Attribute(c.Style.Fg + 1)` in `draw/backend.go`, the identical
values (Clear = -1, Black = 0, ..., White = 7). -/

/-- Go `type Color int`. -/
abbrev Color := Int

def ColorClear : Color := -1

def ColorBlack : Color := 0

def ColorRed : Color := 1

def ColorGreen : Color := 2

def ColorYellow : Color := 3

def ColorBlue : Color := 4

def ColorMagenta : Color := 5

def ColorCyan : Color := 6

def ColorWhite : Color := 7

/-- Go `type Modifier uint`. -/
abbrev Modifier := Nat

def ModifierClear : Modifier := 0

def ModifierBold : Modifier := 512

def ModifierUnderline : Modifier := 1024

def ModifierReverse : Modifier := 2048

/-- Go `Style{Fg, Bg, Modifier}`. -/
structure Style where
  Fg : Color
  Bg : Color
  Modifier : Modifier
deriving DecidableEq, Repr

/-- Go `StyleClear = Style{ColorClear, ColorClear, ModifierClear}`. -/
def StyleClear : Style := ⟨ColorClear, ColorClear, ModifierClear⟩

/-- Go `Cell{Rune, Style}` (`draw/buffer.go`); the termui `Cell` has the same shape. -/
structure Cell where
  Rune : Char
  Style : Style
deriving DecidableEq, Repr

/-! ## Geometry: `image.Point`, `image.Rectangle` -/

abbrev Point := Int × Int

/-- Go `image.Rectangle` with `Min = (minX, minY)`, `Max = (maxX, maxY)`. -/
structure GoRect where
  minX : Int
  minY : Int
  maxX : Int
  maxY : Int
deriving DecidableEq, Repr

/-- Go `p.In(r)`: `Min.X <= p.X < Max.X && Min.Y <= p.Y < Max.Y`. -/
def pIn (p : Point) (r : GoRect) : Prop :=
  r.minX ≤ p.1 ∧ p.1 < r.maxX ∧ r.minY ≤ p.2 ∧ p.2 < r.maxY

instance (p : Point) (r : GoRect) : Decidable (pIn p r) := by
  unfold pIn; infer_instance

/-! ## draw: Buffer and FrameBuffer (`draw/buffer.go`, `part_007`) -/

/-- Go `Buffer{image.Rectangle; CellMap map[image.Point]Cell}`. -/
structure Buffer where
  Rectangle : GoRect
  CellMap : Point → Option Cell

/-- Go `FrameBuffer{CellMap map[image.Point]Cell; Bounds image.Rectangle}`. -/
structure FrameBuffer where
  CellMap : Point → Option Cell
  Bounds : GoRect

/-- Go `cellsEqual` (`part_007`): rune and all three style fields equal. -/
def cellsEqual (a b : Cell) : Bool :=
  a.Rune = b.Rune && a.Style.Fg = b.Style.Fg && a.Style.Bg = b.Style.Bg
    && a.Style.Modifier = b.Style.Modifier

/-- Go `FrameBuffer.Resize(bounds)` (`part_007`): the loop
`for p := range fb.CellMap { if !p.In(bounds) { delete(fb.CellMap, p) } }`
then `fb.Bounds = bounds`, expressed pointwise. -/
def FrameBuffer.Resize (fb : FrameBuffer) (bounds : GoRect) : FrameBuffer :=
  { CellMap := fun p =>
      match fb.CellMap p with
      | some c => if pIn p bounds then some c else none
      | none => none
    Bounds := bounds }

/-- First loop of Go `FrameBuffer.Update(buf)` (`part_007`):
`for p, cell := range buf.CellMap { if p.In(buf.Rectangle) { fb.CellMap[p] = cell } }`,
expressed pointwise. -/
def updateMergeStep (fb : FrameBuffer) (buf : Buffer) : Point → Option Cell :=
  fun p =>
    match buf.CellMap p with
    | some c => if pIn p buf.Rectangle then some c else fb.CellMap p
    | none => fb.CellMap p

/-- Second loop of Go `FrameBuffer.Update(buf)`:
`for p := range fb.CellMap { if !p.In(buf.Rectangle) && p.In(fb.Bounds) { delete(fb.CellMap, p) } }`,
applied to the merged map, expressed pointwise. -/
def updateEvictStep (bounds : GoRect) (buf : Buffer) (m : Point → Option Cell) :
    Point → Option Cell :=
  fun p =>
    match m p with
    | some c => if ¬ pIn p buf.Rectangle ∧ pIn p bounds then none else some c
    | none => none

/-- Go `FrameBuffer.Update(buf)`: merge loop followed by eviction loop. -/
def FrameBuffer.Update (fb : FrameBuffer) (buf : Buffer) : FrameBuffer :=
  { fb with CellMap := updateEvictStep fb.Bounds buf (updateMergeStep fb buf) }

/-- The `changed` result of Go `FrameBuffer.Diff(current)` (`part_007`), pointwise:
a point of `current.CellMap` inside `current.Rectangle` whose cached value is
absent or not `cellsEqual` to the new cell. -/
def FrameBuffer.DiffChanged (fb : FrameBuffer) (current : Buffer) : Point → Option Cell :=
  fun p =>
    match current.CellMap p with
    | some newCell =>
      if pIn p current.Rectangle then
        match fb.CellMap p with
        | none => some newCell
        | some oldCell => if cellsEqual oldCell newCell then none else some newCell
      else none
    | none => none

/-- The `removed` result of Go `FrameBuffer.Diff(current)`, pointwise:
`for p := range fb.CellMap { if !currentCells[p] && p.In(current.Rectangle) { removed = append(...) } }`
where `currentCells` marks the in-rectangle keys of `current.CellMap`. -/
def FrameBuffer.DiffRemoved (fb : FrameBuffer) (current : Buffer) : Point → Bool :=
  fun p =>
    ((fb.CellMap p).isSome &&
      !((current.CellMap p).isSome && decide (pIn p current.Rectangle)) &&
      decide (pIn p current.Rectangle))

/-! ## String helpers shared by the two style parsers.
Strings are embedded as `List Char` (Go iterates `[]rune(s)`). -/

/-- Go `strings.Split` with a one-character separator. -/
def splitOnChar (sep : Char) (s : List Char) : List (List Char) :=
  s.splitOn sep

/-- Whitespace test backing `strings.TrimSpace`; the inputs of interest are ASCII. -/
def isSpaceChar (c : Char) : Bool :=
  c = ' ' || c = '\t' || c = '\n' || c = '\r'

/-- Go `strings.TrimSpace`. -/
def trimSpace (s : List Char) : List Char :=
  ((s.dropWhile isSpaceChar).reverse.dropWhile isSpaceChar).reverse

/-- Go `strings.ToLower` on ASCII letters. -/
def toLowerStr (s : List Char) : List Char :=
  s.map Char.toLower

/-! ## draw package style parser (`part_004`) -/

namespace draw

/-- Go `ColorMap` of the draw package, as a lookup function. -/
def ColorMap (s : List Char) : Option Color :=
  if s = "red".toList then some ColorRed
  else if s = "blue".toList then some ColorBlue
  else if s = "black".toList then some ColorBlack
  else if s = "cyan".toList then some ColorCyan
  else if s = "yellow".toList then some ColorYellow
  else if s = "white".toList then some ColorWhite
  else if s = "clear".toList then some ColorClear
  else if s = "green".toList then some ColorGreen
  else if s = "magenta".toList then some ColorMagenta
  else none

/-- Go `ModifierMap` of the draw package, as a lookup function. -/
def ModifierMap (s : List Char) : Option Modifier :=
  if s = "bold".toList then some ModifierBold
  else if s = "underline".toList then some ModifierUnderline
  else if s = "reverse".toList then some ModifierReverse
  else none

/-- Go `parseStyleString` (`part_004`): split on commas, trim, split each item on
a colon, and override only the recognized keys whose value is a known name. -/
def parseStyleString (styleStr : List Char) (defaultStyle : Style) : Style :=
  (splitOnChar ',' styleStr).foldl
    (fun style item =>
      let item := trimSpace item
      let parts := splitOnChar ':' item
      match parts with
      | [k, v] =>
        let key := trimSpace k
        let value := trimSpace v
        if key = "fg".toList then
          match ColorMap (toLowerStr value) with
          | some color => { style with Fg := color }
          | none => style
        else if key = "bg".toList then
          match ColorMap (toLowerStr value) with
          | some color => { style with Bg := color }
          | none => style
        else if key = "mod".toList then
          match ModifierMap (toLowerStr value) with
          | some m => { style with Modifier := m }
          | none => style
        else style
      | _ => style)
    defaultStyle

/-- Go `ParserState` of the draw package. -/
inductive ParserState where
  | default
  | styleItems
  | styledText
deriving DecidableEq, Repr

/-- The mutable locals of Go `draw.ParseStyles`: accumulated cells, the two
buffers, the state, and the bracket depth. -/
structure ParseAcc where
  cells : List Cell
  styledText : List Char
  styleItems : List Char
  state : ParserState
  bracketDepth : Int
deriving Repr

/-- Go helper `runesToCells` inside `draw.ParseStyles`. -/
def runesToCells (runes : List Char) (style : Style) : List Cell :=
  runes.map (fun r => ⟨r, style⟩)

/-- Go closure `rollback` of `draw.ParseStyles`: emit both buffers verbatim with
the default style, then `reset`. -/
def rollback (d : Style) (a : ParseAcc) : ParseAcc :=
  { cells := a.cells ++ runesToCells a.styledText d ++ runesToCells a.styleItems d
    styledText := []
    styleItems := []
    state := .default
    bracketDepth := 0 }

/-- Go closure `chop` of `draw.ParseStyles`: drop the first and last rune, with
the `len(r) < 2` guard. -/
def chop (r : List Char) : List Char :=
  if r.length < 2 then r else (r.drop 1).dropLast

/-- One iteration of the main loop of Go `draw.ParseStyles` on rune `r`;
`isLast` is Go `i == len(runes)-1`. -/
def stepChar (d : Style) (a : ParseAcc) (r : Char) (isLast : Bool) : ParseAcc :=
  match a.state with
  | .default =>
    if r = '[' then
      { a with state := .styledText, bracketDepth := 1, styledText := a.styledText ++ [r] }
    else
      { a with cells := a.cells ++ [⟨r, d⟩] }
  | .styledText =>
    if a.bracketDepth = 0 then
      if r = '(' then
        { a with state := .styleItems, styleItems := a.styleItems ++ [r] }
      else
        let a := rollback d a
        if r = '[' then
          { a with state := .styledText, bracketDepth := 1,
                   styledText := a.styledText ++ [r] }
        else
          { a with cells := a.cells ++ [⟨r, d⟩] }
    else if isLast then
      rollback d a
    else if r = '[' then
      { a with bracketDepth := a.bracketDepth + 1, styledText := a.styledText ++ [r] }
    else if r = ']' then
      { a with bracketDepth := a.bracketDepth - 1, styledText := a.styledText ++ [r] }
    else
      { a with styledText := a.styledText ++ [r] }
  | .styleItems =>
    let a := { a with styleItems := a.styleItems ++ [r] }
    if r = ')' then
      let styleStr := chop a.styleItems
      let style := parseStyleString styleStr d
      let textRunes := chop a.styledText
      { cells := a.cells ++ runesToCells textRunes style
        styledText := []
        styleItems := []
        state := .default
        bracketDepth := 0 }
    else if isLast then
      rollback d a
    else a

/-- The main loop `for i, r := range runes` of Go `draw.ParseStyles`. -/
def runLoop (d : Style) : ParseAcc → List Char → ParseAcc
  | a, [] => a
  | a, r :: rest => runLoop d (stepChar d a r rest.isEmpty) rest

/-- Go `draw.ParseStyles` (`part_004`): empty-string shortcut, the main loop,
then the trailing `if state != ParserStateDefault { rollback() }`. -/
def ParseStyles (s : List Char) (d : Style) : List Cell :=
  if s = [] then []
  else
    let a := runLoop d ⟨[], [], [], .default, 0⟩ s
    if a.state ≠ ParserState.default then (rollback d a).cells else a.cells

end draw

/-! ## termui package style parser (`part_008`) -/

namespace termui

/-- Go `StyleParserColorMap`, as a lookup function. -/
def StyleParserColorMap (s : List Char) : Option Color :=
  if s = "red".toList then some ColorRed
  else if s = "blue".toList then some ColorBlue
  else if s = "black".toList then some ColorBlack
  else if s = "cyan".toList then some ColorCyan
  else if s = "yellow".toList then some ColorYellow
  else if s = "white".toList then some ColorWhite
  else if s = "clear".toList then some ColorClear
  else if s = "green".toList then some ColorGreen
  else if s = "magenta".toList then some ColorMagenta
  else none

/-- Go `modifierMap` of the termui package, as a lookup function. -/
def modifierMap (s : List Char) : Option Modifier :=
  if s = "bold".toList then some ModifierBold
  else if s = "underline".toList then some ModifierUnderline
  else if s = "reverse".toList then some ModifierReverse
  else none

/-- Go `readStyle` (`part_008`): no trimming, no lowercasing, and a map access
without an ok-check, so an unknown name yields the zero value of the type. -/
def readStyle (runes : List Char) (defaultStyle : Style) : Style :=
  (splitOnChar ',' runes).foldl
    (fun style item =>
      match splitOnChar ':' item with
      | [k, v] =>
        if k = "fg".toList then { style with Fg := (StyleParserColorMap v).getD 0 }
        else if k = "bg".toList then { style with Bg := (StyleParserColorMap v).getD 0 }
        else if k = "mod".toList then { style with Modifier := (modifierMap v).getD 0 }
        else style
      | _ => style)
    defaultStyle

/-- `RunesToStyledCells`, the termui analogue of `utils.RunesToStyledCells`
(`utils/utils.go`): one cell per rune, all with the given style. -/
def RunesToStyledCells (runes : List Char) (style : Style) : List Cell :=
  runes.map (fun r => ⟨r, style⟩)

/-- The mutable locals of Go `termui.ParseStyles`. -/
structure TParseAcc where
  cells : List Cell
  styledText : List Char
  styleItems : List Char
  state : draw.ParserState
  squareCount : Int
deriving Repr

/-- Go closure `rollback` of `termui.ParseStyles`. -/
def rollback (d : Style) (a : TParseAcc) : TParseAcc :=
  { cells := a.cells ++ RunesToStyledCells a.styledText d ++ RunesToStyledCells a.styleItems d
    styledText := []
    styleItems := []
    state := .default
    squareCount := 0 }

/-- Go closure `chop` of `termui.ParseStyles`: `s[1 : len(s)-1]` with no length
guard, so a slice of length below two makes the program panic (`none`). -/
def chop (s : List Char) : Option (List Char) :=
  if s.length < 2 then none else some ((s.drop 1).dropLast)

/-- One iteration of the main loop of Go `termui.ParseStyles`; `none` models a
panic inside the iteration. -/
def stepChar (d : Style) (a : TParseAcc) (r : Char) (isLast : Bool) :
    Option TParseAcc :=
  match a.state with
  | .default =>
    if r = '[' then
      some { a with state := .styledText, squareCount := 1,
                    styledText := a.styledText ++ [r] }
    else
      some { a with cells := a.cells ++ [⟨r, d⟩] }
  | .styledText =>
    if a.squareCount = 0 then
      if r = '(' then
        some { a with state := .styleItems, styleItems := a.styleItems ++ [r] }
      else
        let a := rollback d a
        if r = '[' then
          some { a with state := .styledText, squareCount := 1,
                        styleItems := a.styleItems ++ [r] }
        else
          some { a with cells := a.cells ++ [⟨r, d⟩] }
    else if isLast then
      some { rollback d a with styledText := [r] }
    else if r = '[' then
      some { a with squareCount := a.squareCount + 1, styledText := a.styledText ++ [r] }
    else if r = ']' then
      some { a with squareCount := a.squareCount - 1, styledText := a.styledText ++ [r] }
    else
      some { a with styledText := a.styledText ++ [r] }
  | .styleItems =>
    let a := { a with styleItems := a.styleItems ++ [r] }
    if r = ')' then
      match chop a.styleItems with
      | none => none
      | some si =>
        match chop a.styledText with
        | none => none
        | some st =>
          let style := readStyle si d
          some { cells := a.cells ++ RunesToStyledCells st style
                 styledText := []
                 styleItems := []
                 state := .default
                 squareCount := 0 }
    else if isLast then
      some (rollback d a)
    else some a

/-- The main loop of Go `termui.ParseStyles`, propagating a panic. -/
def runLoop (d : Style) : TParseAcc → List Char → Option TParseAcc
  | a, [] => some a
  | a, r :: rest =>
    match stepChar d a r rest.isEmpty with
    | none => none
    | some b => runLoop d b rest

/-- Go `termui.ParseStyles` (`part_008`): the main loop and nothing after it —
this parser has no trailing rollback and no empty-string shortcut. -/
def ParseStyles (s : List Char) (d : Style) : Option (List Cell) :=
  (runLoop d ⟨[], [], [], .default, 0⟩ s).map (fun a => a.cells)

end termui

/-! ## utils package (`utils/utils.go`) and Go numeric conversions -/

/-- Result of evaluating a Go computation: a value, a returned `error`, or a
runtime panic. -/
inductive GoEval (α : Type) where
  | ok (a : α)
  | err
  | crash
deriving DecidableEq, Repr

/-- Go `int(x)` conversion from `float64`: truncation toward zero. -/
def goInt (q : ℚ) : Int :=
  if 0 ≤ q then ⌊q⌋ else ⌈q⌉

namespace utils

/-- Go `utils.SelectColor`: empty palette falls back to white, otherwise
`colors[index % len(colors)]`. Call sites pass non-negative indices. -/
def SelectColor (colors : List Color) (index : Nat) : Color :=
  if colors.length = 0 then ColorWhite
  else colors.getD (index % colors.length) ColorWhite

/-- Go `utils.GetMaxFloat64FromSlice`: error on an empty slice, else the running
maximum starting from the first element. -/
def GetMaxFloat64FromSlice : List ℚ → GoEval ℚ
  | [] => .err
  | x :: rest => .ok (rest.foldl (fun mx val => if val > mx then val else mx) x)

/-- Go `utils.GetMaxFloat64From2dSlice`: error on an empty outer slice; then
`max := slices[0][0]` — which panics when the first inner slice is empty — then
the running maximum over every value of every inner slice. -/
def GetMaxFloat64From2dSlice (slices : List (List ℚ)) : GoEval ℚ :=
  match slices with
  | [] => .err
  | first :: _ =>
    match first.head? with
    | none => .crash
    | some m0 =>
      .ok (slices.foldl
        (fun mx slice => slice.foldl (fun mx val => if val > mx then val else mx) mx) m0)

end utils

/-! ## widgets: List and Tree scrolling (`part_010`, `part_011`) -/

namespace widgets

/-- The fields of the Go `List` widget that `ScrollAmount` reads and writes. -/
structure GoList where
  Rows : List (List Char)
  SelectedRow : Int
deriving Repr

/-- Go `List.ScrollAmount` (`part_010`):
clamp to the last row, to row zero, or move by `amount`. -/
def listScrollAmount (l : GoList) (amount : Int) : GoList :=
  if (l.Rows.length : Int) - l.SelectedRow ≤ amount then
    { l with SelectedRow := (l.Rows.length : Int) - 1 }
  else if l.SelectedRow + amount < 0 then
    { l with SelectedRow := 0 }
  else
    { l with SelectedRow := l.SelectedRow + amount }

/-- The fields of the Go `Tree` widget that `ScrollAmount` reads and writes;
`rows` is the flattened row list built by `prepareNodes`. -/
structure GoTree where
  rows : List Nat
  SelectedRow : Int
deriving Repr

/-- Go `Tree.ScrollAmount` (`part_011`), same shape as the List version. -/
def treeScrollAmount (t : GoTree) (amount : Int) : GoTree :=
  if (t.rows.length : Int) - t.SelectedRow ≤ amount then
    { t with SelectedRow := (t.rows.length : Int) - 1 }
  else if t.SelectedRow + amount < 0 then
    { t with SelectedRow := 0 }
  else
    { t with SelectedRow := t.SelectedRow + amount }

/-! ## widgets: BarChart geometry (`part_000`-adjacent file in `widgets/table.go`) -/

/-- The geometry of one painted bar: left edge, painted pixel height
(the count of rows filled by the inner `for y` loop), and bar color. -/
structure BarRender where
  x : Int
  height : Int
  color : Color
deriving DecidableEq, Repr

/-- The per-bar loop of Go `BarChart.Draw` (`widgets/table.go`): `barX` starts at
`Inner.Min.X` and advances by `BarWidth + BarGap`; a positive value paints
`int((data/maxVal) * float64(Inner.Dy()-1))` rows in color
`SelectColor(BarColors, i)`; a non-positive value paints no rows. -/
def barChartBarsAux (colors : List Color) (maxVal : ℚ) (dy barWidth barGap : Int) :
    Int → Nat → List ℚ → List BarRender
  | _, _, [] => []
  | barX, i, d :: rest =>
    { x := barX
      height := if 0 < d then goInt ((d / maxVal) * ((dy : ℚ) - 1)) else 0
      color := utils.SelectColor colors i } ::
      barChartBarsAux colors maxVal dy barWidth barGap (barX + (barWidth + barGap)) (i + 1) rest

/-- The bars painted by Go `BarChart.Draw` once `maxVal` is fixed. -/
def barChartBars (minX dy barWidth barGap : Int) (colors : List Color)
    (maxVal : ℚ) (data : List ℚ) : List BarRender :=
  barChartBarsAux colors maxVal dy barWidth barGap minX 0 data

/-- The `maxVal` computation at the head of Go `BarChart.Draw`: use `MaxVal`
when non-zero, else auto-compute; an error or a zero maximum returns from
`Draw` before any bar is painted (`ok none`). -/
def barChartMaxVal (maxValField : ℚ) (data : List ℚ) : GoEval (Option ℚ) :=
  if maxValField = 0 then
    match utils.GetMaxFloat64FromSlice data with
    | .err => .ok none
    | .crash => .crash
    | .ok m => if m = 0 then .ok none else .ok (some m)
  else .ok (some maxValField)

/-- The `maxVal` computation at the head of Go `Plot.Draw` (`widgets/plot.go`):
use `MaxVal` when non-zero, else `GetMaxFloat64From2dSlice`; `err != nil ||
maxVal == 0` returns from `Draw` before anything beyond the base is painted
(`ok none`); the 2d maximum itself can panic. -/
def plotMaxVal (maxValField : ℚ) (data : List (List ℚ)) : GoEval (Option ℚ) :=
  if maxValField = 0 then
    match utils.GetMaxFloat64From2dSlice data with
    | .err => .ok none
    | .crash => .crash
    | .ok m => if m = 0 then .ok none else .ok (some m)
  else .ok (some maxValField)

end widgets

/-! ## draw: Layout engine (`part_006`).
Go ratio fields (`Ratio`, `XRatio`, ...) are embedded as `ℚ` fields named
`frac`, `xFrac`, ...; on the inputs considered here the Go float64 arithmetic
(products and halvings of small dyadic rationals) is exact. The Go
`interface{}` children (a `LayoutItem` or a bare `Drawable`) become a closed
inductive. -/

namespace draw

/-- Go `LayoutItemType`: `LayoutItemColumn = 0`, `LayoutItemRow = 1`. -/
inductive LItemType where
  | column
  | row
deriving DecidableEq, Repr

/-- A Go layout tree node: a `LayoutItem` with `IsLeaf=true` holding a widget,
a `LayoutItem` holding nested children, or a bare `Drawable` passed as a child.
`align` is the Go `Align` field (`AlignLeft = 0`). -/
inductive LNode where
  | leafItem (type : LItemType) (frac : ℚ) (align : Nat) (wid : Nat)
  | nested (type : LItemType) (frac : ℚ) (children : List LNode)
  | rawWidget (wid : Nat)
deriving Repr

/-- Go `child.Type` read in the layout loop (never read on a bare widget). -/
def LNode.typeOf : LNode → LItemType
  | .leafItem t _ _ _ => t
  | .nested t _ _ => t
  | .rawWidget _ => .column

/-- Go `child.Ratio` read in the layout loop (never read on a bare widget). -/
def LNode.fracOf : LNode → ℚ
  | .leafItem _ f _ _ => f
  | .nested _ f _ => f
  | .rawWidget _ => 0

/-- A leaf appended to `l.Items` by `layoutHelper`, with its computed absolute
coordinates (`XRatio`, `YRatio`, `WidthRatio`, `HeightRatio` in Go). -/
structure ResolvedItem where
  wid : Nat
  align : Nat
  xFrac : ℚ
  yFrac : ℚ
  wFrac : ℚ
  hFrac : ℚ
deriving DecidableEq, Repr

mutual

/-- Go `Layout.layoutHelper(item, parentWidthRatio, parentHeightRatio,
parentXRatio, parentYRatio)` (`part_006`): compute the item's absolute ratios
from its type and its parent's, append the item itself when it is a leaf, else
process the children in order. Returns the leaves appended to `l.Items`. -/
def layoutHelper (node : LNode) (pW pH pX pY : ℚ) : List ResolvedItem :=
  match node with
  | .rawWidget _ => []
  | .leafItem t frac align wid =>
    let wr : ℚ := match t with | .column => frac | .row => 1
    let hr : ℚ := match t with | .column => 1 | .row => frac
    [{ wid := wid, align := align, xFrac := pX, yFrac := pY,
       wFrac := pW * wr, hFrac := pH * hr }]
  | .nested t frac children =>
    let wr : ℚ := match t with | .column => frac | .row => 1
    let hr : ℚ := match t with | .column => 1 | .row => frac
    layoutChildren t children.length children 0 0 false false (pW * wr) (pH * hr) pX pY

/-- The `for i := 0; i < len(children); i++` loop of `layoutHelper`, carrying
the mutable locals `xRatio`, `yRatio`, `hasColumns`, `hasRows` and the item's
own (possibly halved) `WidthRatio`/`HeightRatio`. `parentType` and `count` are
the enclosing item's type and child count. -/
def layoutChildren (parentType : LItemType) (count : Nat) (cs : List LNode)
    (xR yR : ℚ) (hasCols hasRows : Bool) (curW curH itemX itemY : ℚ) :
    List ResolvedItem :=
  match cs with
  | [] => []
  | c :: rest =>
    match c with
    | .rawWidget wid =>
      let leafFrac : ℚ := 1 / (count : ℚ)
      let resolved : ResolvedItem :=
        { wid := wid, align := 0
          xFrac := itemX + xR * curW
          yFrac := itemY + yR * curH
          wFrac := curW / (count : ℚ)
          hFrac := curH / (count : ℚ) }
      let xR2 := if parentType = .column then xR + leafFrac else xR
      let yR2 := if parentType = .column then yR else yR + leafFrac
      resolved ::
        layoutChildren parentType count rest xR2 yR2 hasCols hasRows curW curH itemX itemY
    | child =>
      let childX := itemX + curW * xR
      let childY := itemY + curH * yR
      match child.typeOf with
      | .column =>
        let hasCols2 := true
        let xR2 := xR + child.fracOf
        let curH2 := if hasRows then curH / 2 else curH
        layoutHelper child curW curH2 childX childY ++
          layoutChildren parentType count rest xR2 yR hasCols2 hasRows curW curH2 itemX itemY
      | .row =>
        let hasRows2 := true
        let yR2 := yR + child.fracOf
        let curW2 := if hasCols then curW / 2 else curW
        layoutHelper child curW2 curH childX childY ++
          layoutChildren parentType count rest xR yR2 hasCols hasRows2 curW2 curH itemX itemY

end

/-- Go `Layout.Set(items...)`: wrap the arguments in a root `Row` of ratio 1 and
resolve it from absolute ratios `(1, 1, 0, 0)`. -/
def layoutSet (items : List LNode) : List ResolvedItem :=
  layoutHelper (.nested .row 1 items) 1 1 0 0

/-- The body of the `for _, item := range l.Items` loop of Go `Layout.Draw`
(`part_006`): absolute coordinates by truncation, clamping to the inner
rectangle, skipping non-positive sizes, the leaf alignment shift, and the
`SetRect(x, y, x+w, y+h)` target. -/
def layoutPlaceItem (inner : GoRect) (it : ResolvedItem) : Option (Nat × GoRect) :=
  let width : ℚ := ((inner.maxX - inner.minX : Int) : ℚ)
  let height : ℚ := ((inner.maxY - inner.minY : Int) : ℚ)
  let x := goInt (width * it.xFrac) + inner.minX
  let y := goInt (height * it.yFrac) + inner.minY
  let w := goInt (width * it.wFrac)
  let h := goInt (height * it.hFrac)
  let w := if x + w > inner.maxX then inner.maxX - x else w
  let h := if y + h > inner.maxY then inner.maxY - y else h
  if w ≤ 0 ∨ h ≤ 0 then none
  else
    let x := if it.align = 1 then x + w / 4 else if it.align = 2 then x + w / 2 else x
    some (it.wid, ⟨x, y, x + w, y + h⟩)

/-- Go `Layout.Draw` restricted to the rectangles it assigns: the widgets drawn,
in order, with the rectangle passed to `SetRect`. -/
def layoutDraw (inner : GoRect) (items : List ResolvedItem) : List (Nat × GoRect) :=
  items.filterMap (layoutPlaceItem inner)

end draw

/-! ## Concrete instances used by counterexamples and witnesses -/

/-- A sample cell. -/
def cxCell : Cell := ⟨'x', StyleClear⟩

/-- A frame buffer caching one cell at (5,5), bounds 10 by 10. -/
def cxFrameBufA : FrameBuffer :=
  ⟨fun p => if p = ((5 : Int), (5 : Int)) then some cxCell else none, ⟨0, 0, 10, 10⟩⟩

/-- A frame buffer caching one cell at (0,0), bounds 10 by 10. -/
def cxFrameBufB : FrameBuffer :=
  ⟨fun p => if p = ((0 : Int), (0 : Int)) then some cxCell else none, ⟨0, 0, 10, 10⟩⟩

/-- A buffer over the rectangle (0,0)-(2,2) with an empty cell map (the Go
`Buffer` type does not force the map to cover the rectangle). -/
def cxBufEmpty : Buffer := ⟨⟨0, 0, 2, 2⟩, fun _ => none⟩

/-- A frame buffer with an empty cache, bounds 3 by 3. -/
def wFrameBuf : FrameBuffer := ⟨fun _ => none, ⟨0, 0, 3, 3⟩⟩

/-- A buffer over (0,0)-(1,1) whose map covers its rectangle, as `NewBuffer`
produces. -/
def wBuf : Buffer :=
  ⟨⟨0, 0, 1, 1⟩, fun p => if p = ((0 : Int), (0 : Int)) then some cxCell else none⟩

/-- The layout tree `Set(NewLayoutRow(1.0, NewLayoutColumn(0.5, A),
NewLayoutColumn(0.5, B)))` with A = widget 0 and B = widget 1. -/
def c8Tree : List draw.LNode :=
  [ .nested .row 1 [ .leafItem .column (1/2) 0 0, .leafItem .column (1/2) 0 1 ] ]

/-! # Theorems -/

/-! ## Shared helper lemmas -/

theorem cellsEqual_refl (c : Cell) : cellsEqual c c = true := by
  simp [cellsEqual]

/-- Pointwise description of `FrameBuffer.Update`: inside the buffer's rectangle
the buffer's cells win and missing points keep the old cache value; outside the
rectangle, points inside `Bounds` are evicted and points outside keep their
value. -/
theorem update_cellMap_eq (fb : FrameBuffer) (buf : Buffer) (p : Point) :
    (fb.Update buf).CellMap p =
      if pIn p buf.Rectangle then
        (match buf.CellMap p with
         | some c => some c
         | none => fb.CellMap p)
      else if pIn p fb.Bounds then none
      else fb.CellMap p := by
  unfold FrameBuffer.Update updateEvictStep updateMergeStep
  cases hb : buf.CellMap p with
  | some c =>
    by_cases hr : pIn p buf.Rectangle
    · simp [hb, hr]
    · cases hf : fb.CellMap p with
      | some c2 => by_cases hbd : pIn p fb.Bounds <;> simp [hb, hr, hbd, hf]
      | none => by_cases hbd : pIn p fb.Bounds <;> simp [hb, hr, hbd, hf]
  | none =>
    by_cases hr : pIn p buf.Rectangle
    · cases hf : fb.CellMap p with
      | some c2 => simp [hb, hr, hf]
      | none => simp [hb, hr, hf]
    · cases hf : fb.CellMap p with
      | some c2 => by_cases hbd : pIn p fb.Bounds <;> simp [hb, hr, hbd, hf]
      | none => by_cases hbd : pIn p fb.Bounds <;> simp [hb, hr, hbd, hf]

/-! ## C1 -/

/-- Claim C1, code_bug evidence: on the malformed input `"[abc"` both
`draw.ParseStyles` and `termui.ParseStyles` emit only the three cells
`[`, `a`, `b` under the default style — the final rune `c` is dropped by the
rollback taken on the last character — although the input has four runes, so
the returned cell count does not equal the input rune count. -/
theorem parse_unclosed_span_drops_last_rune :
    draw.ParseStyles "[abc".toList StyleClear =
      [⟨'[', StyleClear⟩, ⟨'a', StyleClear⟩, ⟨'b', StyleClear⟩] ∧
    termui.ParseStyles "[abc".toList StyleClear =
      some [⟨'[', StyleClear⟩, ⟨'a', StyleClear⟩, ⟨'b', StyleClear⟩] ∧
    ("[abc".toList).length = 4 := by
  refine ⟨by decide, by decide, by decide⟩

/-! ## C2 -/

/-- Claim C2, counterexample: the cached point (5,5) lies outside the buffer's
rectangle (and inside `Bounds`), so by the claim it must keep its cell value,
yet `Update` evicts it. -/
theorem update_evicts_outside_rect_cx :
    pIn ((5 : Int), (5 : Int)) cxFrameBufA.Bounds ∧
    ¬ pIn ((5 : Int), (5 : Int)) cxBufEmpty.Rectangle ∧
    cxFrameBufA.CellMap ((5 : Int), (5 : Int)) = some cxCell ∧
    (cxFrameBufA.Update cxBufEmpty).CellMap ((5 : Int), (5 : Int)) = none := by
  refine ⟨by decide, by decide, by decide, by decide⟩

/-- Claim C2 as amended: `Update(buffer)` merges into the cache exactly the
buffer's cells that lie inside the buffer's rectangle; the cached points it
evicts are exactly those outside the buffer's rectangle and inside the
frame buffer's `Bounds`; every other cached point keeps its value, and cached
points inside the rectangle are never evicted (only possibly overwritten). -/
theorem update_merges_inside_evicts_outside (fb : FrameBuffer) (buf : Buffer) (p : Point) :
    (fb.Update buf).CellMap p =
      if pIn p buf.Rectangle then
        (match buf.CellMap p with
         | some c => some c
         | none => fb.CellMap p)
      else if pIn p fb.Bounds then none
      else fb.CellMap p :=
  update_cellMap_eq fb buf p

/-! ## C3 -/

/-- Claim C3, counterexample: with a cache holding (0,0) and a buffer whose
rectangle contains (0,0) but whose cell map is empty, `Diff` immediately after
`Update` reports (0,0) as removed, so the removed list is not empty. -/
theorem diff_after_update_removed_nonempty_cx :
    ((cxFrameBufB.Update cxBufEmpty).DiffRemoved cxBufEmpty) ((0 : Int), (0 : Int)) = true := by
  decide

/-- Claim C3 as amended: immediately after `Update(buf)`, `Diff(buf)` has an
empty `changed` map unconditionally, and an empty `removed` list provided every
point of `buf`'s rectangle that the cache holds is present in `buf`'s cell map
(true of every buffer produced by `NewBuffer`, which pre-fills its whole
rectangle). -/
theorem diff_after_update_empty_of_covered (fb : FrameBuffer) (buf : Buffer)
    (hcov : ∀ q : Point, pIn q buf.Rectangle → fb.CellMap q ≠ none → buf.CellMap q ≠ none)
    (p : Point) :
    ((fb.Update buf).DiffChanged buf) p = none ∧
    ((fb.Update buf).DiffRemoved buf) p = false := by
  constructor
  · unfold FrameBuffer.DiffChanged
    cases hb : buf.CellMap p with
    | none => simp
    | some c =>
      by_cases hr : pIn p buf.Rectangle
      · have hupd2 : (fb.Update buf).CellMap p = some c := by
          rw [update_cellMap_eq, hb, if_pos hr]
        simp [hr, hupd2, cellsEqual_refl]
      · simp [hr]
  · unfold FrameBuffer.DiffRemoved
    by_cases hr : pIn p buf.Rectangle
    · cases hb : buf.CellMap p with
      | some c => simp [hb, hr]
      | none =>
        have hupd2 : (fb.Update buf).CellMap p = fb.CellMap p := by
          rw [update_cellMap_eq, hb, if_pos hr]
        cases hf : fb.CellMap p with
        | none => rw [hf] at hupd2; simp [hupd2]
        | some c2 =>
          exfalso
          exact hcov p hr (by simp [hf]) hb
    · simp [hr]

/-- Witness for the amended C3 at a concrete frame buffer with an empty cache,
a buffer covering its one-point rectangle, and the point (0,0). -/
theorem diff_after_update_empty_witness :
    ((wFrameBuf.Update wBuf).DiffChanged wBuf) ((0 : Int), (0 : Int)) = none ∧
    ((wFrameBuf.Update wBuf).DiffRemoved wBuf) ((0 : Int), (0 : Int)) = false :=
  diff_after_update_empty_of_covered wFrameBuf wBuf
    (fun _ _ hfb => absurd rfl hfb) ((0 : Int), (0 : Int))

/-! ## C4 -/

/-- Claim C4, code_bug evidence: with auto-computed maximum (`MaxVal = 0`),
`Plot.Draw` on empty data returns before painting anything beyond the base
(ok), but on a `Data` slice containing one empty series it panics, because
`GetMaxFloat64From2dSlice` indexes `slices[0][0]` before checking the inner
slice — so `Draw` does not complete normally on all degenerate data. -/
theorem plot_maxval_crashes_on_empty_series :
    widgets.plotMaxVal 0 [] = .ok none ∧
    widgets.plotMaxVal 0 [[]] = .crash ∧
    utils.GetMaxFloat64From2dSlice [[]] = .crash := by
  refine ⟨by decide, by decide, by decide⟩

/-! ## C9 -/

/-- Claim C9: `Resize(bounds)` sets the `Bounds` field to the new bounds, maps
every cached point outside the new bounds to nothing, and keeps every cached
point inside the new bounds unchanged (stated pointwise for all bounds, which
covers resizing to smaller bounds). -/
theorem resize_drops_exactly_outside (fb : FrameBuffer) (bounds : GoRect) (p : Point) :
    (fb.Resize bounds).Bounds = bounds ∧
    (fb.Resize bounds).CellMap p =
      (if pIn p bounds then fb.CellMap p else none) := by
  refine ⟨rfl, ?_⟩
  unfold FrameBuffer.Resize
  cases hf : fb.CellMap p with
  | some c => by_cases hb : pIn p bounds <;> simp [hf, hb]
  | none => by_cases hb : pIn p bounds <;> simp [hf, hb]

/-! ## C10 -/

/-- Claim C10: for a List with non-empty `Rows` and `SelectedRow` in range, and
a Tree with non-empty flattened `rows` and `SelectedRow` in range, any scroll
amount leaves the selection within `[0, length-1]`. -/
theorem scroll_amount_stays_in_bounds (l : widgets.GoList) (t : widgets.GoTree)
    (amount : Int)
    (hl0 : l.Rows ≠ []) (hl1 : 0 ≤ l.SelectedRow)
    (hl2 : l.SelectedRow ≤ (l.Rows.length : Int) - 1)
    (ht0 : t.rows ≠ []) (ht1 : 0 ≤ t.SelectedRow)
    (ht2 : t.SelectedRow ≤ (t.rows.length : Int) - 1) :
    (0 ≤ (widgets.listScrollAmount l amount).SelectedRow ∧
      (widgets.listScrollAmount l amount).SelectedRow ≤ (l.Rows.length : Int) - 1) ∧
    (0 ≤ (widgets.treeScrollAmount t amount).SelectedRow ∧
      (widgets.treeScrollAmount t amount).SelectedRow ≤ (t.rows.length : Int) - 1) := by
  have hln : 1 ≤ (l.Rows.length : Int) := by
    have : l.Rows.length ≠ 0 := by
      simpa [List.length_eq_zero] using hl0
    omega
  have htn : 1 ≤ (t.rows.length : Int) := by
    have : t.rows.length ≠ 0 := by
      simpa [List.length_eq_zero] using ht0
    omega
  constructor
  · unfold widgets.listScrollAmount
    split_ifs <;> constructor <;> simp <;> omega
  · unfold widgets.treeScrollAmount
    split_ifs <;> constructor <;> simp <;> omega

/-- Witness for C10: a three-row list and tree with the middle row selected and
a large positive scroll amount. -/
theorem scroll_amount_stays_in_bounds_witness :
    (0 ≤ (widgets.listScrollAmount ⟨[['a'], ['b'], ['c']], 1⟩ 100).SelectedRow ∧
      (widgets.listScrollAmount ⟨[['a'], ['b'], ['c']], 1⟩ 100).SelectedRow ≤
        (([['a'], ['b'], ['c']] : List (List Char)).length : Int) - 1) ∧
    (0 ≤ (widgets.treeScrollAmount ⟨[7, 8, 9], 1⟩ 100).SelectedRow ∧
      (widgets.treeScrollAmount ⟨[7, 8, 9], 1⟩ 100).SelectedRow ≤
        (([7, 8, 9] : List Nat).length : Int) - 1) :=
  scroll_amount_stays_in_bounds ⟨[['a'], ['b'], ['c']], 1⟩ ⟨[7, 8, 9], 1⟩ 100
    (by decide) (by decide) (by decide) (by decide) (by decide) (by decide)

/-! ## C5 -/

/-- On input without an opening bracket, the draw parser stays in the default
state and appends one plain cell per rune. -/
theorem draw_runLoop_plain (d : Style) (s : List Char) (h : '[' ∉ s) (cs : List Cell) :
    draw.runLoop d ⟨cs, [], [], .default, 0⟩ s =
      ⟨cs ++ draw.runesToCells s d, [], [], .default, 0⟩ := by
  induction s generalizing cs with
  | nil => simp [draw.runLoop, draw.runesToCells]
  | cons c rest ih =>
    have hc : ¬ (c = '[') := fun hcc => h (by simp [hcc])
    have hrest : '[' ∉ rest := fun hm => h (by simp [hm])
    show draw.runLoop d (draw.stepChar d ⟨cs, [], [], .default, 0⟩ c rest.isEmpty) rest = _
    rw [show draw.stepChar d ⟨cs, [], [], .default, 0⟩ c rest.isEmpty =
        ⟨cs ++ [{ Rune := c, Style := d }], [], [], .default, 0⟩ by
      simp [draw.stepChar, hc]]
    have heq := ih hrest (cs ++ [Cell.mk c d])
    refine heq.trans ?_
    simp [draw.runesToCells]

/-- On input without an opening bracket, the termui parser stays in the default
state, appends one plain cell per rune, and never panics. -/
theorem termui_runLoop_plain (d : Style) (s : List Char) (h : '[' ∉ s) (cs : List Cell) :
    termui.runLoop d ⟨cs, [], [], .default, 0⟩ s =
      some ⟨cs ++ termui.RunesToStyledCells s d, [], [], .default, 0⟩ := by
  induction s generalizing cs with
  | nil => simp [termui.runLoop, termui.RunesToStyledCells]
  | cons c rest ih =>
    have hc : ¬ (c = '[') := fun hcc => h (by simp [hcc])
    have hrest : '[' ∉ rest := fun hm => h (by simp [hm])
    show (match termui.stepChar d ⟨cs, [], [], .default, 0⟩ c rest.isEmpty with
          | none => none
          | some b => termui.runLoop d b rest) = _
    rw [show termui.stepChar d ⟨cs, [], [], .default, 0⟩ c rest.isEmpty =
        some ⟨cs ++ [{ Rune := c, Style := d }], [], [], .default, 0⟩ by
      simp [termui.stepChar, hc]]
    show termui.runLoop d ⟨cs ++ [{ Rune := c, Style := d }], [], [], .default, 0⟩ rest = _
    have heq := ih hrest (cs ++ [Cell.mk c d])
    refine heq.trans ?_
    simp [termui.RunesToStyledCells]

/-- Claim C5, counterexample: on the one-rune input `"["`, `draw.ParseStyles`
emits the bracket as a plain cell (its trailing rollback runs after the loop),
while `termui.ParseStyles` — which has no trailing rollback — emits nothing, so
the two parsers do not produce the same sequence of styled cells. -/
theorem parsers_disagree_on_open_bracket :
    draw.ParseStyles ['['] StyleClear = [⟨'[', StyleClear⟩] ∧
    termui.ParseStyles ['['] StyleClear = some [] ∧
    termui.ParseStyles ['['] StyleClear ≠ some (draw.ParseStyles ['['] StyleClear) := by
  refine ⟨by decide, by decide, by decide⟩

/-- Claim C5 as amended: on every input string containing no `[` (so no markup
span ever opens) the two parsers produce the same sequence of styled cells —
the input's runes in order, each carrying the default style. -/
theorem parsers_agree_without_open_bracket (s : List Char) (d : Style) (h : '[' ∉ s) :
    termui.ParseStyles s d = some (draw.ParseStyles s d) := by
  unfold termui.ParseStyles draw.ParseStyles
  by_cases hs : s = []
  · subst hs
    simp [termui.runLoop]
  · rw [if_neg hs, draw_runLoop_plain d s h [], termui_runLoop_plain d s h []]
    simp [draw.runesToCells, termui.RunesToStyledCells]

/-- Witness for the amended C5 on the concrete bracket-free input `"ab"`. -/
theorem parsers_agree_witness :
    termui.ParseStyles "ab".toList StyleClear =
      some (draw.ParseStyles "ab".toList StyleClear) :=
  parsers_agree_without_open_bracket "ab".toList StyleClear (by decide)

/-! ## C6 -/

/-- Inside a styled-text span at bracket depth 1, every rune that is not a
bracket and is not the last rune of the input is simply accumulated. -/
theorem draw_runLoop_styledText_accum (d : Style) (T : List Char) (rest : List Char)
    (hT : ∀ c ∈ T, c ≠ '[' ∧ c ≠ ']') (hrest : rest ≠ [])
    (cs : List Cell) (st : List Char) :
    draw.runLoop d ⟨cs, st, [], .styledText, 1⟩ (T ++ rest) =
      draw.runLoop d ⟨cs, st ++ T, [], .styledText, 1⟩ rest := by
  induction T generalizing st with
  | nil => simp
  | cons c T2 ih =>
    have hc1 : ¬ (c = '[') := (hT c (by simp)).1
    have hc2 : ¬ (c = ']') := (hT c (by simp)).2
    have hT2 : ∀ x ∈ T2, x ≠ '[' ∧ x ≠ ']' := fun x hx => hT x (by simp [hx])
    have hne : ((T2 ++ rest).isEmpty) = false := by
      cases rest with
      | nil => exact absurd rfl hrest
      | cons r rs => simp
    show draw.runLoop d
        (draw.stepChar d ⟨cs, st, [], .styledText, 1⟩ c (T2 ++ rest).isEmpty) (T2 ++ rest) = _
    rw [show draw.stepChar d ⟨cs, st, [], .styledText, 1⟩ c (T2 ++ rest).isEmpty =
        ⟨cs, st ++ [c], [], .styledText, 1⟩ by
      simp [draw.stepChar, hc1, hc2, hne]]
    have heq := ih hT2 (st ++ [c])
    refine heq.trans ?_
    simp

/-- `chop` of a buffer of the form `a :: T ++ [b]` recovers `T`. -/
theorem draw_chop_wrap (T : List Char) (a b : Char) :
    draw.chop (a :: (T ++ [b])) = T := by
  unfold draw.chop
  rw [if_neg (by simp)]
  simp

/-- `parseStyleString` on the concrete spec `fg:red` overrides only the
foreground color. -/
theorem draw_parseStyleString_fg_red (d : Style) :
    draw.parseStyleString ['f', 'g', ':', 'r', 'e', 'd'] d = { d with Fg := ColorRed } := by
  rfl

/-- Claim C6: for every text `T` containing none of the four markup tokens,
parsing the well-formed string `[T](fg:red)` with any default style yields
exactly one cell per rune of `T`, each with foreground red and the background
and modifier of the default style, and no other cells. -/
theorem wellformed_red_span_parses (T : List Char) (d : Style)
    (hT : ∀ c ∈ T, c ≠ '[' ∧ c ≠ ']' ∧ c ≠ '(' ∧ c ≠ ')') :
    draw.ParseStyles ('[' :: (T ++ "](fg:red)".toList)) d =
      T.map (fun r => Cell.mk r { d with Fg := ColorRed }) := by
  have hT2 : ∀ c ∈ T, c ≠ '[' ∧ c ≠ ']' := fun c hc => ⟨(hT c hc).1, (hT c hc).2.1⟩
  have htail : "](fg:red)".toList = ']' :: '(' :: 'f' :: 'g' :: ':' :: 'r' :: 'e' :: 'd' :: ')' :: [] := rfl
  unfold draw.ParseStyles
  rw [if_neg (by simp)]
  rw [htail]
  show (let a := draw.runLoop d
          (draw.stepChar d ⟨[], [], [], .default, 0⟩ '['
            (T ++ [']', '(', 'f', 'g', ':', 'r', 'e', 'd', ')']).isEmpty)
          (T ++ [']', '(', 'f', 'g', ':', 'r', 'e', 'd', ')']);
        if a.state ≠ draw.ParserState.default then (draw.rollback d a).cells else a.cells) = _
  rw [show draw.stepChar d ⟨[], [], [], .default, 0⟩ '['
        (T ++ [']', '(', 'f', 'g', ':', 'r', 'e', 'd', ')']).isEmpty =
      ⟨[], ['['], [], .styledText, 1⟩ by simp [draw.stepChar]]
  rw [draw_runLoop_styledText_accum d T [']', '(', 'f', 'g', ':', 'r', 'e', 'd', ')']
      hT2 (by simp) [] ['[']]
  simp only [List.singleton_append]
  simp [draw.runLoop, draw.stepChar, draw.chop, draw.runesToCells,
    draw_parseStyleString_fg_red, draw_chop_wrap]
  rw [if_neg (by omega)]

/-- Witness for C6 at the concrete text `ab` and the clear default style. -/
theorem wellformed_red_span_parses_witness :
    draw.ParseStyles ('[' :: (['a', 'b'] ++ "](fg:red)".toList)) StyleClear =
      [Cell.mk 'a' { StyleClear with Fg := ColorRed },
       Cell.mk 'b' { StyleClear with Fg := ColorRed }] :=
  wellformed_red_span_parses ['a', 'b'] StyleClear (by decide)

/-! ## C7 -/

/-- Indexing formula for the bar-placement loop: starting at `barX` with data
index `i0`, the bar at offset `i` sits at `barX + i * (barWidth + barGap)`. -/
theorem barChartBarsAux_get (colors : List Color) (maxVal : ℚ) (dy bw bg : Int)
    (data : List ℚ) (barX : Int) (i0 : Nat) :
    ∀ (i : Nat) (v : ℚ), data.get? i = some v →
      (widgets.barChartBarsAux colors maxVal dy bw bg barX i0 data).get? i =
        some ⟨barX + (i : Int) * (bw + bg),
              if 0 < v then goInt (v / maxVal * ((dy : ℚ) - 1)) else 0,
              utils.SelectColor colors (i0 + i)⟩ := by
  induction data generalizing barX i0 with
  | nil => intro i v hv; simp at hv
  | cons x rest ih =>
    intro i v hv
    cases i with
    | zero =>
      simp only [List.get?] at hv
      injection hv with hv
      subst hv
      simp [widgets.barChartBarsAux]
    | succ n =>
      simp only [List.get?] at hv
      have := ih (barX + (bw + bg)) (i0 + 1) n v hv
      simp only [widgets.barChartBarsAux, List.get?]
      rw [this]
      congr 2
      · push_cast
        ring
      · congr 1
        omega

/-- The running maximum of the Go max loop is one of the scanned values. -/
theorem foldl_max_mem (x : ℚ) (rest : List ℚ) :
    rest.foldl (fun mx val => if val > mx then val else mx) x ∈ x :: rest := by
  induction rest generalizing x with
  | nil => simp
  | cons y ys ih =>
    have h := ih (if y > x then y else x)
    by_cases hxy : y > x
    · rw [if_pos hxy] at h
      simp only [List.foldl, if_pos hxy]
      rcases List.mem_cons.mp h with h1 | h1
      · simp [h1]
      · simp [h1]
    · rw [if_neg hxy] at h
      simp only [List.foldl, if_neg hxy]
      rcases List.mem_cons.mp h with h1 | h1
      · simp [h1]
      · simp [h1]

/-- Claim C7: with positive data, the auto-computed maximum `m`, an inner height
of at least one row and a non-empty palette, bar `i` is painted with pixel
height `floor(value/m * (innerHeight-1))`, sits at `Inner.Min.X + i *
(BarWidth + BarGap)` and takes color `BarColors[i mod len(BarColors)]`; in
particular `Data=[10,20,5]` with inner height 10 gives bar heights 4, 9, 2
(ratio 10:20:5 up to rounding) and the tallest bar reaches `innerHeight - 1`. -/
theorem barchart_geometry :
    (∀ (minX dy barWidth barGap : Int) (colors : List Color) (data : List ℚ) (m : ℚ),
      utils.GetMaxFloat64FromSlice data = .ok m →
      (∀ x ∈ data, 0 < x) → 1 ≤ dy → colors ≠ [] →
      ∀ (i : Nat) (v : ℚ), data.get? i = some v →
        (widgets.barChartBars minX dy barWidth barGap colors m data).get? i =
          some ⟨minX + (i : Int) * (barWidth + barGap),
                Int.floor (v / m * ((dy : ℚ) - 1)),
                colors.getD (i % colors.length) ColorWhite⟩) ∧
    utils.GetMaxFloat64FromSlice [10, 20, 5] = .ok 20 ∧
    widgets.barChartBars 0 10 3 1 [ColorRed, ColorGreen] 20 [10, 20, 5] =
      [⟨0, 4, ColorRed⟩, ⟨4, 9, ColorGreen⟩, ⟨8, 2, ColorRed⟩] ∧
    (9 : Int) = 10 - 1 := by
  refine ⟨?_, by decide, ?_, by decide⟩
  · intro minX dy barWidth barGap colors data m hmax hpos hdy hcol i v hv
    have hm : 0 < m := by
      cases data with
      | nil => simp [utils.GetMaxFloat64FromSlice] at hmax
      | cons x rest =>
        have hmem : m ∈ x :: rest := by
          have : m = rest.foldl (fun mx val => if val > mx then val else mx) x := by
            simpa [utils.GetMaxFloat64FromSlice] using hmax.symm
          rw [this]
          exact foldl_max_mem x rest
        exact hpos m hmem
    have hvpos : 0 < v := hpos v (List.get?_mem hv)
    have hbase := barChartBarsAux_get colors m dy barWidth barGap data minX 0 i v hv
    rw [widgets.barChartBars, hbase]
    have harg : (0 : ℚ) ≤ v / m * ((dy : ℚ) - 1) := by
      have h1 : (0 : ℚ) ≤ v / m := le_of_lt (div_pos hvpos hm)
      have h2 : (0 : ℚ) ≤ (dy : ℚ) - 1 := by
        have : (1 : ℚ) ≤ (dy : ℚ) := by exact_mod_cast hdy
        linarith
      exact mul_nonneg h1 h2
    rw [if_pos hvpos]
    have hgi : goInt (v / m * ((dy : ℚ) - 1)) = Int.floor (v / m * ((dy : ℚ) - 1)) := by
      simp only [goInt, if_pos harg]
    have hsc : utils.SelectColor colors (0 + i) = colors.getD (i % colors.length) ColorWhite := by
      simp only [utils.SelectColor]
      rw [if_neg (by simpa [List.length_eq_zero] using hcol)]
      simp
    rw [hgi, hsc]
  · simp [widgets.barChartBars, widgets.barChartBarsAux, utils.SelectColor, goInt]
    norm_num [Int.floor_eq_iff]

/-- Witness for the universally quantified part of C7 at the concrete instance
`Data=[10,20,5]`, inner height 10, bar width 3, gap 1, two palette colors,
index 1. -/
theorem barchart_geometry_witness :
    (widgets.barChartBars 0 10 3 1 [ColorRed, ColorGreen] 20 [10, 20, 5]).get? 1 =
      some ⟨0 + (1 : Int) * (3 + 1),
            Int.floor ((20 : ℚ) / 20 * ((10 : ℚ) - 1)),
            ([ColorRed, ColorGreen].getD (1 % 2) ColorWhite)⟩ :=
  barchart_geometry.1 0 10 3 1 [ColorRed, ColorGreen] [10, 20, 5] 20
    (by decide) (by decide) (by decide) (by decide) 1 20 (by decide)

/-! ## C8 -/

/-- Go `int(float64(w) * 0.5)` is floor division by two for non-negative `w`. -/
theorem goInt_half (w : Int) (hw : 0 ≤ w) : goInt ((w : ℚ) * (1 / 2)) = w / 2 := by
  have h0 : (0 : ℚ) ≤ (w : ℚ) * (1 / 2) :=
    mul_nonneg (by exact_mod_cast hw) (by norm_num)
  have hmul : (w : ℚ) * (1 / 2) = (w : ℚ) / ((2 : Nat) : ℚ) := by
    push_cast
    ring
  rw [goInt, if_pos h0, hmul, Rat.floor_intCast_div_natCast]
  rfl

theorem goInt_zero : goInt 0 = 0 := by
  simp [goInt]

theorem goInt_intCast (n : Int) (hn : 0 ≤ n) : goInt ((n : Int) : ℚ) = n := by
  rw [goInt, if_pos (by exact_mod_cast hn)]
  exact Int.floor_intCast n

/-- Placement of the resolved left column (absolute ratios `(0, 0, 1/2, 1)`):
the left half of the inner rectangle, full height. -/
theorem layoutPlace_colA (minX minY maxX maxY : Int)
    (hw : 2 ≤ maxX - minX) (hh : 1 ≤ maxY - minY) :
    draw.layoutPlaceItem ⟨minX, minY, maxX, maxY⟩ ⟨0, 0, 0, 0, 1/2, 1⟩ =
      some (0, ⟨minX, minY, minX + (maxX - minX) / 2, maxY⟩) := by
  simp only [draw.layoutPlaceItem, mul_zero, mul_one]
  rw [goInt_zero, goInt_half (maxX - minX) (by omega), goInt_intCast (maxY - minY) (by omega)]
  split_ifs <;> try contradiction
  all_goals try (exfalso; omega)
  simp only [Option.some.injEq, Prod.mk.injEq, GoRect.mk.injEq]
  refine ⟨?_, ?_, ?_, ?_, ?_⟩ <;> first | trivial | omega

/-- Placement of the resolved right column (absolute ratios `(1/2, 0, 1/2, 1)`):
the right half of the inner rectangle, full height, starting where the left
column ends. -/
theorem layoutPlace_colB (minX minY maxX maxY : Int)
    (hw : 2 ≤ maxX - minX) (hh : 1 ≤ maxY - minY) :
    draw.layoutPlaceItem ⟨minX, minY, maxX, maxY⟩ ⟨1, 0, 1/2, 0, 1/2, 1⟩ =
      some (1, ⟨minX + (maxX - minX) / 2, minY, minX + 2 * ((maxX - minX) / 2), maxY⟩) := by
  simp only [draw.layoutPlaceItem, mul_zero, mul_one]
  rw [goInt_zero, goInt_half (maxX - minX) (by omega), goInt_intCast (maxY - minY) (by omega)]
  split_ifs <;> try contradiction
  all_goals try (exfalso; omega)
  simp only [Option.some.injEq, Prod.mk.injEq, GoRect.mk.injEq]
  refine ⟨?_, ?_, ?_, ?_, ?_⟩ <;> first | trivial | omega

/-- Claim C8: for the layout `Set(Row(1.0, Column(0.5, A), Column(0.5, B)))` and
any inner rectangle at least 2 cells wide and 1 cell tall, drawing assigns A
and B adjacent non-overlapping rectangles — A is `[minX, minX+m)`, B is
`[minX+m, minX+2m)` with `m = floor(width/2)` — each spanning the full inner
height, each of width `m`, which is half the inner width up to one cell. -/
theorem layout_half_columns (minX minY maxX maxY : Int)
    (hw : 2 ≤ maxX - minX) (hh : 1 ≤ maxY - minY) :
    draw.layoutDraw ⟨minX, minY, maxX, maxY⟩ (draw.layoutSet c8Tree) =
      [(0, ⟨minX, minY, minX + (maxX - minX) / 2, maxY⟩),
       (1, ⟨minX + (maxX - minX) / 2, minY, minX + 2 * ((maxX - minX) / 2), maxY⟩)] ∧
    2 * ((maxX - minX) / 2) ≤ maxX - minX ∧
    maxX - minX ≤ 2 * ((maxX - minX) / 2) + 1 := by
  refine ⟨?_, by omega, by omega⟩
  have hres : draw.layoutSet c8Tree =
      [⟨0, 0, 0, 0, 1/2, 1⟩, ⟨1, 0, 1/2, 0, 1/2, 1⟩] := by
    simp [draw.layoutSet, draw.layoutHelper, draw.layoutChildren, draw.LNode.typeOf,
      draw.LNode.fracOf, c8Tree]
  rw [hres, draw.layoutDraw, List.filterMap_cons, List.filterMap_cons, List.filterMap_nil,
    layoutPlace_colA minX minY maxX maxY hw hh, layoutPlace_colB minX minY maxX maxY hw hh]

/-- Witness for C8 at the concrete inner rectangle (0,0)-(11,5): A gets
(0,0)-(5,5) and B gets (5,0)-(10,5). -/
theorem layout_half_columns_witness :
    draw.layoutDraw ⟨0, 0, 11, 5⟩ (draw.layoutSet c8Tree) =
      [(0, ⟨0, 0, 0 + (11 - 0) / 2, 5⟩),
       (1, ⟨0 + (11 - 0) / 2, 0, 0 + 2 * ((11 - 0) / 2), 5⟩)] ∧
    2 * (((11 : Int) - 0) / 2) ≤ 11 - 0 ∧
    (11 : Int) - 0 ≤ 2 * ((11 - 0) / 2) + 1 :=
  layout_half_columns 0 0 11 5 (by decide) (by decide)

end ConsoleViz
